import Mathlib

/-!
Verification of `send_alumni_emails.py` (a batch mail-merge script).

Strings are modelled as `List Char` (ASCII scope: Python's `str.strip()`,
the regex class `\s`, `str.title()` and `str.isalpha` agree with this model
on ASCII input).  Each definition below is a direct translation of the
corresponding Python function; the driver (`main`) is modelled as a trace
producing state machine whose network and timing effects are explicit
events, with the per-send outcome and the random jitter supplied by
oracles.
-/

namespace AlumniEmail

/-- Shorthand: the character list of a string literal. -/
def chars (s : String) : List Char := s.toList

/-- Python's whitespace class `\s` / `str.strip()` on ASCII:
space, tab, newline, carriage return, vertical tab, form feed. -/
def isSpace (c : Char) : Bool :=
  c == ' ' || c == '\t' || c == '\n' || c == '\r' || c == '\x0b' || c == '\x0c'

/-- Strip characters satisfying `p` from both ends
(Python `str.strip(chars)` / `str.strip()`). -/
def stripWhile (p : Char → Bool) (s : List Char) : List Char :=
  List.rdropWhile p (s.dropWhile p)

/-- Python `str.strip()` (no argument): strip whitespace from both ends. -/
def strip (s : List Char) : List Char := stripWhile isSpace s

/-- Python `text.split(",")`: split on every comma; keeps empty pieces,
`"".split(",") == [""]`. -/
def splitComma : List Char → List (List Char)
  | [] => [[]]
  | c :: rest =>
    if c = ',' then [] :: splitComma rest
    else
      match splitComma rest with
      | [] => [[c]]
      | h :: t => (c :: h) :: t

/-- Split a list at the first occurrence of `t`: returns
`some (before, after)` when `t` occurs, `none` otherwise. -/
def splitFirst (t : Char) : List Char → Option (List Char × List Char)
  | [] => none
  | c :: rest =>
    if c = t then some ([], rest)
    else
      match splitFirst t rest with
      | none => none
      | some (a, b) => some (c :: a, b)

/-- `CONTACT_RE.fullmatch(raw)` for
`CONTACT_RE = re.compile(r"\s*([^<]+?)\s*<\s*([^>]+)\s*>\s*")`, returning
the two stripped groups as the source then strips them
(`m.group(1).strip(), m.group(2).strip()`).

Derivation from the regex, for the reviewer: in a full match, every
character consumed before the pattern's literal `<` is matched by
`\s*([^<]+?)\s*`, none of which can match `<`, so the literal `<` consumes
the FIRST `<` of `raw`; likewise `\s*([^>]+)\s*` cannot match `>`, so the
literal `>` consumes the first `>` after that `<`.  The part before the
first `<` must be non-empty (group 1 needs at least one character, the
`\s*` may be empty; conversely any non-empty `<`-free prefix matches by
putting it all in group 1).  The part between the brackets must be
non-empty, and the part after the `>` must be all whitespace (matched by
the final `\s*`).  Whatever split between `\s*` and the group the engine
chooses, the groups differ from the bracket-delimited parts only by
leading/trailing whitespace, so after `.strip()` the values are the
stripped prefix and the stripped bracket contents. -/
def contactMatch (raw : List Char) : Option (List Char × List Char) :=
  match splitFirst '<' raw with
  | none => none
  | some (pre, rest) =>
    match splitFirst '>' rest with
    | none => none
    | some (mid, post) =>
      if pre ≠ [] ∧ mid ≠ [] ∧ post.all isSpace then
        some (strip pre, strip mid)
      else none

/-- A parsed recipient (the `Contact` dataclass). -/
structure Contact where
  display_name : List Char
  email : List Char
deriving DecidableEq

/-- Python `re.split(r"\s+", s)`: split on maximal whitespace runs
(a leading run yields an empty first piece, a trailing run an empty
last piece).  A whitespace character opens a new piece exactly when it
is the last character of its run. -/
def reSplitWs : List Char → List (List Char)
  | [] => [[]]
  | c :: rest =>
    if isSpace c then
      match rest with
      | [] => [[], []]
      | d :: _ => if isSpace d then reSplitWs rest else [] :: reSplitWs rest
    else
      match reSplitWs rest with
      | [] => [[c]]
      | h :: t => (c :: h) :: t

/-- `Contact.first_name`: strip the display name; if empty return `""`,
else take `re.split(r"\s+", name)[0]` and strip commas from both ends. -/
def first_name (c : Contact) : List Char :=
  let name := strip c.display_name
  if name = [] then []
  else stripWhile (fun ch => ch == ',') ((reSplitWs name).headD [])

/-- `local.replace(".", " ").replace("_", " ")`: both replacements are
single-character, so they amount to one character map. -/
def dotsToSpaces (s : List Char) : List Char :=
  s.map (fun c => if c = '.' ∨ c = '_' then ' ' else c)

/-- Python `str.title()` on ASCII: a letter is uppercased when the previous
character is not a letter, lowercased otherwise; other characters are kept
and reset the word boundary. -/
def pyTitle : Bool → List Char → List Char
  | _, [] => []
  | prevAlpha, c :: rest =>
    (if c.isAlpha then (if prevAlpha then c.toLower else c.toUpper) else c)
      :: pyTitle c.isAlpha rest

/-- The display name synthesized for a bare email address:
`local = candidate.split("@", 1)[0]` (the part before the first `@`),
then `.replace(".", " ").replace("_", " ").title()`. -/
def inferredName (cand : List Char) : List Char :=
  pyTitle false (dotsToSpaces (cand.takeWhile (fun c => c ≠ '@')))

/-- The set stripped by `raw.strip("<> ")`. -/
def isAngleOrSpace (c : Char) : Bool := c == '<' || c == '>' || c == ' '

/-- The per-chunk step of `parse_contacts`: regex match, else bare-email
fallback, else `none` (the chunk is skipped with a warning). -/
def parseChunk (raw : List Char) : Option Contact :=
  match contactMatch raw with
  | some (dn, em) => some ⟨dn, em⟩
  | none =>
    let cand := stripWhile isAngleOrSpace raw
    if '@' ∈ cand ∧ ' ' ∉ cand then
      some ⟨inferredName cand, cand⟩
    else none

/-- The chunks `parse_contacts` iterates over:
`filter(None, (chunk.strip() for chunk in text.split(",")))`. -/
def chunksOf (text : List Char) : List (List Char) :=
  ((splitComma text).map strip).filter (fun c => c ≠ [])

/-- `parse_contacts`: one contact per recognized chunk, in input order. -/
def parse_contacts (text : List Char) : List Contact :=
  (chunksOf text).filterMap parseChunk

/-- The chunks `parse_contacts` warns about and skips
(`print(f"...Skipping unrecognized entry...")`). -/
def parseWarnings (text : List Char) : List (List Char) :=
  (chunksOf text).filter (fun c => parseChunk c = none)

/-- The placeholder token of the template, `\x7b\x7balumni_name\x7d\x7d`. -/
def token : List Char := chars "\x7b\x7balumni_name\x7d\x7d"

/-- The fallback word substituted for an empty first name. -/
def thereWord : List Char := chars "there"

/-- `pat` stands at the start of `s`. -/
def leads : List Char → List Char → Bool
  | [], _ => true
  | _ :: _, [] => false
  | a :: as, b :: bs => a == b && leads as bs

/-- `pat` occurs somewhere in `s` (at any position, including the end). -/
def occurs (pat : List Char) : List Char → Bool
  | [] => leads pat []
  | c :: rest => leads pat (c :: rest) || occurs pat rest

/-- Fuelled scanner behind `replaceAll`; the fuel only serves structural
recursion and is irrelevant from `s.length` upward (`replaceAllFuel_eq`). -/
def replaceAllFuel (pat repl : List Char) : Nat → List Char → List Char
  | 0, s => s
  | _ + 1, [] => []
  | fuel + 1, c :: rest =>
    if pat ≠ [] ∧ leads pat (c :: rest) then
      repl ++ replaceAllFuel pat repl fuel ((c :: rest).drop pat.length)
    else c :: replaceAllFuel pat repl fuel rest

/-- Python `s.replace(pat, repl)` for a non-empty `pat`: scan left to
right, replacing each non-overlapping occurrence and resuming after the
inserted replacement.  (Python's behaviour for an empty `pat` differs —
it inserts `repl` between all characters — but the only `pat` used here,
the placeholder token, is non-empty, and this model leaves `s` unchanged
in that vacuous case.) -/
def replaceAll (pat repl s : List Char) : List Char :=
  replaceAllFuel pat repl s.length s

/-- `personalize(template, first_name)`:
`template.replace(TOKEN, first_name or "there")`. -/
def personalize (template fname : List Char) : List Char :=
  replaceAll token (if fname = [] then thereWord else fname) template

/-- Outcome of one real SMTP send attempt, supplied by an oracle:
success, `smtplib.SMTPAuthenticationError`, or any other exception
(carrying its message text). -/
inductive SendResult where
  | ok : SendResult
  | authFail : SendResult
  | otherFail : List Char → SendResult
deriving DecidableEq

/-- Observable actions of the driver: a console line, a network send
attempt (one SMTP connection) to a recipient address, or a sleep of the
given duration in seconds.  Durations are modelled as rationals. -/
inductive Event where
  | out : List Char → Event
  | attempt : List Char → Event
  | sleep : Rat → Event
deriving DecidableEq

/-- How the process ends: `SystemExit` with a message (exit status 1),
an uncaught `SMTPAuthenticationError` (exit status 1), or normal
completion with the success count and the total (exit status 0). -/
inductive RunExit where
  | configError : List Char → RunExit
  | authAbort : RunExit
  | done : Nat → Nat → RunExit
deriving DecidableEq

/-- The numeric exit status of each `RunExit`. -/
def exitCode : RunExit → Nat
  | .configError _ => 1
  | .authAbort => 1
  | .done _ _ => 0

/-- The driver's configuration: the two environment variables (absent =
`none`, as from `os.getenv`), the recipient file's text, and the CLI
arguments.  The template is the global `TEMPLATE` constant in the source;
it is a parameter here since no claim depends on its text. -/
structure Config where
  senderEmail : Option (List Char)
  senderPass : Option (List Char)
  listText : List Char
  subject : List Char
  fromName : List Char
  template : List Char
  delay : Rat
  dryRun : Bool

/-- Python truthiness of `os.getenv(...)`: present and non-empty. -/
def truthy : Option (List Char) → Bool
  | some (_ :: _) => true
  | _ => false

/-- Python `max(a, b)` on rationals: `b` when `a < b`, else `a`. -/
def pyMax (a b : Rat) : Rat := if a < b then b else a

/-- The sleep duration of one iteration:
`max(0.0, args.delay) + random.uniform(0.0, 0.75)`, with the drawn
jitter supplied by the oracle. -/
def pause (delay jitter : Rat) : Rat := pyMax 0 delay + jitter

/-- `print("-" * 60)`. -/
def sepLine : List Char := List.replicate 60 '-'

/-- `print(f"TO: ...")` in dry-run mode. -/
def toLine (c : Contact) : List Char :=
  chars "TO: " ++ c.display_name ++ chars " <" ++ c.email ++ chars ">"

/-- `print(f"SUBJECT: ...")` in dry-run mode. -/
def subjectLine (subject : List Char) : List Char :=
  chars "SUBJECT: " ++ subject

/-- `print(f"✅ Sent to ...")`. -/
def sentLine (c : Contact) : List Char :=
  chars "✅ Sent to " ++ c.display_name ++ chars " <" ++ c.email ++ chars ">"

/-- The diagnostic printed on `SMTPAuthenticationError`. -/
def authLine : List Char :=
  chars "❌ Authentication failed. If you use 2‑Step Verification, you must use an App Password."

/-- `print(f"⚠️  Failed to send to ...")`. -/
def failLine (c : Contact) (msg : List Char) : List Char :=
  chars "⚠️  Failed to send to " ++ c.display_name ++ chars " <" ++ c.email
    ++ chars ">: " ++ msg

/-- `print(f"Found ... contacts. ...")`. -/
def foundLine (n : Nat) (dryRun : Bool) : List Char :=
  chars "Found " ++ (Nat.repr n).toList ++ chars " contacts. "
    ++ (if dryRun then chars "(DRY RUN)" else [])

/-- `print(f"Done. Successfully processed sent/total contacts.")`. -/
def doneLine (sent total : Nat) : List Char :=
  chars "Done. Successfully processed " ++ (Nat.repr sent).toList ++ chars "/"
    ++ (Nat.repr total).toList ++ chars " contacts."

/-- The `SystemExit` message for missing credentials. -/
def missingCredsMsg : List Char :=
  chars "Missing EMAIL_USER or EMAIL_PASS in environment. Create a .env with both values."

/-- The `SystemExit` message for an empty contact list. -/
def noContactsMsg : List Char :=
  chars "No contacts found. Check your list format."

/-- One iteration of the send loop for contact `c` at index `i`: the
emitted events, the increment of the success counter, and whether the
iteration re-raises (aborting the run).  In dry-run mode the four lines
are printed and nothing else happens.  Otherwise one send is attempted;
on success the confirmation is printed, the counter incremented and the
polite delay slept; on authentication failure the diagnostic is printed
and the exception re-raised (no sleep); on any other failure the warning
is printed and the delay slept. -/
def loopStep (cfg : Config) (res : Nat → SendResult) (jit : Nat → Rat)
    (c : Contact) (i : Nat) : List Event × Nat × Bool :=
  if cfg.dryRun then
    ([.out sepLine, .out (toLine c), .out (subjectLine cfg.subject),
      .out (personalize cfg.template (first_name c))], 0, false)
  else
    match res i with
    | .ok =>
      ([.attempt c.email, .out (sentLine c), .sleep (pause cfg.delay (jit i))], 1, false)
    | .authFail =>
      ([.attempt c.email, .out authLine], 0, true)
    | .otherFail m =>
      ([.attempt c.email, .out (failLine c m), .sleep (pause cfg.delay (jit i))], 0, false)

/-- The send loop over the remaining contacts, from index `i`: events,
total success count, and whether the loop aborted via re-raise. -/
def sendLoop (cfg : Config) (res : Nat → SendResult) (jit : Nat → Rat) :
    List Contact → Nat → List Event × Nat × Bool
  | [], _ => ([], 0, false)
  | c :: cs, i =>
    let r := loopStep cfg res jit c i
    if r.2.2 then (r.1, r.2.1, true)
    else
      let rest := sendLoop cfg res jit cs (i + 1)
      (r.1 ++ rest.1, r.2.1 + rest.2.1, rest.2.2)

/-- The whole of `main` after argument parsing: credential check, contact
loading, the `Found` line, the loop, and the final summary (printed only
when the loop was not aborted by an authentication failure). -/
def runMain (cfg : Config) (res : Nat → SendResult) (jit : Nat → Rat) :
    List Event × RunExit :=
  if truthy cfg.senderEmail = false ∨ truthy cfg.senderPass = false then
    ([], .configError missingCredsMsg)
  else
    let contacts := parse_contacts cfg.listText
    if contacts = [] then ([], .configError noContactsMsg)
    else
      let r := sendLoop cfg res jit contacts 0
      if r.2.2 then
        (Event.out (foundLine contacts.length cfg.dryRun) :: r.1, .authAbort)
      else
        (Event.out (foundLine contacts.length cfg.dryRun) :: r.1
          ++ [Event.out (doneLine r.2.1 contacts.length)],
         .done r.2.1 contacts.length)

/-! ### Concrete instances used by witnesses and counterexamples -/

/-- All send attempts succeed. -/
def resOk : Nat → SendResult := fun _ => SendResult.ok

/-- All send attempts raise `SMTPAuthenticationError`. -/
def resAuth : Nat → SendResult := fun _ => SendResult.authFail

/-- The jitter oracle that always draws `0`. -/
def jitZero : Nat → Rat := fun _ => 0

/-- The jitter oracle that always draws `1/2`. -/
def jitHalf : Nat → Rat := fun _ => 1 / 2

/-- A run configured with `--delay -1` (a negative delay). -/
def cfgNeg : Config :=
  ⟨some (chars "u"), some (chars "p"), chars "A <a@b>", chars "S",
   chars "F", chars "T", -1, false⟩

/-- A run configured with the default `--delay 3`. -/
def cfgPos : Config :=
  ⟨some (chars "u"), some (chars "p"), chars "A <a@b>", chars "S",
   chars "F", chars "T", 3, false⟩

/-- A two-recipient run used to observe an authentication abort. -/
def cfgTwo : Config :=
  ⟨some (chars "u"), some (chars "p"), chars "a <x@y>, b <z@w>", chars "S",
   chars "F", chars "T", 3, false⟩

/-- A dry run over one recipient. -/
def cfgDry : Config :=
  ⟨some (chars "u"), some (chars "p"), chars "A <a@b>", chars "S",
   chars "F", chars "T", 3, true⟩

/-- A run with the sender address missing from the environment. -/
def cfgNoCred : Config :=
  ⟨none, some (chars "p"), chars "A <a@b>", chars "S",
   chars "F", chars "T", 3, false⟩

/-- The single contact parsed from `"A <a@b>"`. -/
def contactA : Contact := ⟨chars "A", chars "a@b"⟩

/-! ### Helper lemmas -/

theorem dropWhile_append_all {p : Char → Bool} {w : List Char} (s : List Char)
    (hw : ∀ c ∈ w, p c = true) :
    List.dropWhile p (w ++ s) = List.dropWhile p s := by
  induction w with
  | nil => rfl
  | cons c cs ih =>
    simp only [List.cons_append, List.dropWhile_cons, hw c (by simp)]
    exact ih (fun c hc => hw c (by simp [hc]))

theorem dropWhile_append_ne {p : Char → Bool} {a : List Char} (b : List Char)
    (ha : List.dropWhile p a ≠ []) :
    List.dropWhile p (a ++ b) = List.dropWhile p a ++ b := by
  induction a with
  | nil => exact absurd rfl ha
  | cons c cs ih =>
    by_cases hc : p c = true
    · simp only [List.cons_append, List.dropWhile_cons, hc, if_pos]
      simp only [List.dropWhile_cons, hc, if_pos] at ha
      exact ih ha
    · simp only [List.cons_append, List.dropWhile_cons, hc]
      simp

theorem rdropWhile_append_all {p : Char → Bool} {w : List Char} (s : List Char)
    (hw : ∀ c ∈ w, p c = true) :
    List.rdropWhile p (s ++ w) = List.rdropWhile p s := by
  induction w using List.reverseRecOn with
  | nil => simp
  | append_singleton ws x ih =>
    rw [← List.append_assoc]
    rw [List.rdropWhile_concat_pos _ _ _ (hw x (by simp))]
    exact ih (fun c hc => hw c (by simp [hc]))

theorem stripWhile_append_left {p : Char → Bool} {w : List Char} (s : List Char)
    (hw : ∀ c ∈ w, p c = true) :
    stripWhile p (w ++ s) = stripWhile p s := by
  unfold stripWhile
  rw [dropWhile_append_all s hw]

theorem stripWhile_append_right {p : Char → Bool} {w : List Char} (s : List Char)
    (hw : ∀ c ∈ w, p c = true) :
    stripWhile p (s ++ w) = stripWhile p s := by
  unfold stripWhile
  by_cases hs : List.dropWhile p s = []
  · have hall : List.dropWhile p (s ++ w) = [] :=
      List.dropWhile_eq_nil_iff.mpr (fun c hc => by
        rcases List.mem_append.mp hc with h | h
        · exact List.dropWhile_eq_nil_iff.mp hs c h
        · exact hw c h)
    rw [hall, hs]
  · rw [dropWhile_append_ne w hs]
    exact rdropWhile_append_all _ hw

theorem stripWhile_all {p : Char → Bool} {s : List Char}
    (hs : ∀ c ∈ s, p c = true) : stripWhile p s = [] := by
  unfold stripWhile
  rw [List.dropWhile_eq_nil_iff.mpr hs]
  simp [List.rdropWhile]

theorem stripWhile_dropWhile {p : Char → Bool} (s : List Char) :
    stripWhile p (List.dropWhile p s) = stripWhile p s := by
  unfold stripWhile
  rw [List.dropWhile_idempotent]

theorem splitComma_no_comma {s : List Char} (h : ',' ∉ s) :
    splitComma s = [s] := by
  induction s with
  | nil => rfl
  | cons c cs ih =>
    unfold splitComma
    rw [if_neg (fun hc => h (by simp [hc]))]
    rw [ih (fun hc => h (by simp [hc]))]

theorem chunksOf_single {s : List Char} (hc : ',' ∉ s) (hs : strip s ≠ []) :
    chunksOf s = [strip s] := by
  unfold chunksOf
  rw [splitComma_no_comma hc]
  simp [hs]

theorem splitFirst_not_mem {t : Char} {s : List Char} (h : t ∉ s) :
    splitFirst t s = none := by
  induction s with
  | nil => rfl
  | cons c cs ih =>
    simp only [splitFirst]
    rw [if_neg (fun hc => h (by simp [hc.symm]))]
    rw [ih (fun hc => h (by simp [hc]))]

theorem splitFirst_append {t : Char} {a : List Char} (b : List Char)
    (ha : t ∉ a) : splitFirst t (a ++ t :: b) = some (a, b) := by
  induction a with
  | nil => simp [splitFirst]
  | cons c cs ih =>
    simp only [List.cons_append, splitFirst]
    rw [if_neg (fun hc => ha (by simp [hc.symm]))]
    rw [List.append_eq, ih (fun hc => ha (by simp [hc]))]

theorem contactMatch_of_shape {pre mid : List Char} (post : List Char)
    (hpre : pre ≠ []) (hpreLt : '<' ∉ pre) (hmid : mid ≠ []) (hmidGt : '>' ∉ mid)
    (hpost : post.all isSpace = true) :
    contactMatch (pre ++ ('<' :: (mid ++ ('>' :: post))))
      = some (strip pre, strip mid) := by
  unfold contactMatch
  rw [splitFirst_append _ hpreLt]
  dsimp only
  rw [splitFirst_append _ hmidGt]
  dsimp only
  rw [if_pos ⟨hpre, hmid, hpost⟩]

theorem strip_shape {w1 name : List Char} (em : List Char) {w2 : List Char}
    (hw1 : ∀ c ∈ w1, isSpace c = true) (hw2 : ∀ c ∈ w2, isSpace c = true)
    (hname : List.dropWhile isSpace name ≠ []) :
    strip (w1 ++ (name ++ ('<' :: (em ++ ('>' :: w2)))))
      = List.dropWhile isSpace name ++ ('<' :: (em ++ ['>'])) := by
  unfold strip
  rw [stripWhile_append_left _ hw1]
  rw [show name ++ ('<' :: (em ++ ('>' :: w2)))
        = (name ++ ('<' :: (em ++ ['>']))) ++ w2 from by simp]
  rw [stripWhile_append_right _ hw2]
  unfold stripWhile
  rw [dropWhile_append_ne _ hname]
  rw [show List.dropWhile isSpace name ++ ('<' :: (em ++ ['>']))
        = (List.dropWhile isSpace name ++ ('<' :: em)) ++ ['>'] from by simp]
  rw [List.rdropWhile_concat_neg isSpace _ '>' (by decide)]

/-- **C1, counterexample.**  A chunk whose display-name part is pure
whitespace, ` <a@b.com>`, matches the claimed shape (one or more
non-`<` characters, then a bracketed email), yet the parser does not
return the trimmed name `""`: the chunk is stripped before the regex
runs, the match fails, and the bare-email fallback invents the display
name `"A"` from the local part. -/
theorem parse_contacts_ws_name_counterexample :
    parse_contacts (chars " <a@b.com>") = [⟨chars "A", chars "a@b.com"⟩]
      ∧ chars "A" ≠ strip (chars " ") := by
  decide

/-- **C1, amended.**  For a single comma-free chunk of the form
`whitespace, name, '<', email, '>', whitespace` in which the name
contains at least one non-whitespace character (and no `<`) and the
bracketed part is non-empty (and contains no `>`), `parse_contacts`
yields exactly one Contact carrying the trimmed name and the trimmed
bracket contents. -/
theorem parse_contacts_named_entry (w1 name em w2 : List Char)
    (hw1 : ∀ c ∈ w1, isSpace c = true) (hw2 : ∀ c ∈ w2, isSpace c = true)
    (hname : ∃ c ∈ name, isSpace c = false)
    (hnameLt : '<' ∉ name) (hem : em ≠ []) (hemGt : '>' ∉ em)
    (hnameC : ',' ∉ name) (hemC : ',' ∉ em) :
    parse_contacts (w1 ++ (name ++ ('<' :: (em ++ ('>' :: w2)))))
      = [⟨strip name, strip em⟩] := by
  have hndw : List.dropWhile isSpace name ≠ [] := by
    intro hnil
    obtain ⟨c, hc, hcs⟩ := hname
    have := List.dropWhile_eq_nil_iff.mp hnil c hc
    simp [hcs] at this
  have hw1' : ',' ∉ w1 := fun h => by
    have := hw1 ',' h
    simp [isSpace] at this
  have hw2' : ',' ∉ w2 := fun h => by
    have := hw2 ',' h
    simp [isSpace] at this
  have hcomma : ',' ∉ w1 ++ (name ++ ('<' :: (em ++ ('>' :: w2)))) := by
    intro hmem
    simp only [List.mem_append, List.mem_cons] at hmem
    have h1 : ¬ (',' = '<') := by decide
    have h2 : ¬ (',' = '>') := by decide
    tauto
  have hstrip := strip_shape em hw1 hw2 hndw
  have hne : strip (w1 ++ (name ++ ('<' :: (em ++ ('>' :: w2))))) ≠ [] := by
    rw [hstrip]
    rcases h : List.dropWhile isSpace name with _ | ⟨c, cs⟩
    · exact absurd h hndw
    · simp
  unfold parse_contacts
  rw [chunksOf_single hcomma hne, hstrip]
  have hmatch : contactMatch (List.dropWhile isSpace name ++ ('<' :: (em ++ ('>' :: ([] : List Char)))))
      = some (strip name, strip em) := by
    rw [contactMatch_of_shape ([] : List Char) hndw
      (fun hmem => hnameLt ((List.dropWhile_suffix isSpace).sublist.subset hmem))
      hem hemGt (by decide)]
    have hsd : strip (List.dropWhile isSpace name) = strip name := stripWhile_dropWhile name
    rw [hsd]
  simp only [List.filterMap, parseChunk]
  rw [show (List.dropWhile isSpace name ++ ('<' :: (em ++ ['>'])))
        = List.dropWhile isSpace name ++ ('<' :: (em ++ ('>' :: ([] : List Char)))) from rfl]
  rw [hmatch]

/-- **C1, witness.** -/
theorem parse_contacts_named_entry_witness :
    parse_contacts (chars " Jane Doe <jane@x.com>")
      = [⟨chars "Jane Doe", chars "jane@x.com"⟩] := by
  have h := parse_contacts_named_entry (chars " ") (chars "Jane Doe ")
    (chars "jane@x.com") [] (by decide) (by decide)
    (⟨'J', by decide⟩) (by decide) (by decide) (by decide) (by decide) (by decide)
  exact h.trans (by decide)

/-- **C2, counterexample.**  The chunk `a@@b` has two `@` characters,
so by the claim it must not be treated as a bare email address; the code
only tests `"@" in candidate`, accepts it, and emits a Contact. -/
theorem parse_contacts_double_at_counterexample :
    parse_contacts (chars "a@@b") = [⟨chars "A", chars "a@@b"⟩]
      ∧ (chars "a@@b").count '@' ≠ 1 := by
  decide

/-- **C2, amended.**  A chunk on which the bracket pattern fails is
treated as a bare email address iff, after stripping `<`, `>` and space
characters from its ends, the remainder contains at least one `@` and no
space character (other whitespace is not rejected, and more than one `@`
is accepted); the emitted Contact carries that remainder as email and,
as display name, the part before the first `@` with `.` and `_` replaced
by spaces and title-cased.  The concrete conjunct anchors the claim's
own example. -/
theorem parse_contacts_bare_email :
    (∀ s, ',' ∉ s → strip s ≠ [] → contactMatch (strip s) = none →
      parse_contacts s =
        (if '@' ∈ stripWhile isAngleOrSpace (strip s)
            ∧ ' ' ∉ stripWhile isAngleOrSpace (strip s)
         then [⟨inferredName (stripWhile isAngleOrSpace (strip s)),
               stripWhile isAngleOrSpace (strip s)⟩]
         else []))
    ∧ parse_contacts (chars "first.last@domain.com")
        = [⟨chars "First Last", chars "first.last@domain.com"⟩] := by
  constructor
  · intro s hc hs hmatch
    unfold parse_contacts
    rw [chunksOf_single hc hs]
    simp only [List.filterMap, parseChunk]
    rw [hmatch]
    by_cases h : '@' ∈ stripWhile isAngleOrSpace (strip s)
        ∧ ' ' ∉ stripWhile isAngleOrSpace (strip s)
    · rw [if_pos h, if_pos h]
    · rw [if_neg h, if_neg h]
  · decide

/-- **C2, witness.** -/
theorem parse_contacts_bare_email_witness :
    parse_contacts (chars "bob@y.org") = [⟨chars "Bob", chars "bob@y.org"⟩] := by
  have h := parse_contacts_bare_email.1 (chars "bob@y.org")
    (by decide) (by decide) (by decide)
  exact h.trans (by decide)

/-- **C3, counterexample.**  The chunk `Name <foo>` matches the bracket
pattern, so the parser emits `Contact("Name", "foo")` although `foo`
contains no `@`; the claimed invariant fails. -/
theorem parse_contacts_no_at_counterexample :
    parse_contacts (chars "Name <foo>") = [⟨chars "Name", chars "foo"⟩]
      ∧ '@' ∉ chars "foo" := by
  decide

/-- **C3, amended.**  Every Contact returned by `parse_contacts` either
comes from a chunk matched by the bracket pattern — its email is the
trimmed bracket contents, not further validated — or was produced by the
bare-email fallback, in which case its email is non-empty, contains an
`@`, and contains no space. -/
theorem parse_contacts_email_sources (text : List Char) (c : Contact)
    (hc : c ∈ parse_contacts text) :
    (∃ chunk, chunk ∈ chunksOf text
        ∧ contactMatch chunk = some (c.display_name, c.email))
      ∨ (c.email ≠ [] ∧ '@' ∈ c.email ∧ ' ' ∉ c.email) := by
  obtain ⟨chunk, hmem, hpc⟩ := List.mem_filterMap.mp hc
  rcases hcm : contactMatch chunk with _ | ⟨dn, em⟩
  · right
    unfold parseChunk at hpc
    rw [hcm] at hpc
    simp only at hpc
    by_cases h : '@' ∈ stripWhile isAngleOrSpace chunk
        ∧ ' ' ∉ stripWhile isAngleOrSpace chunk
    · rw [if_pos h] at hpc
      obtain ⟨rfl⟩ := Option.some.inj hpc
      exact ⟨List.ne_nil_of_mem h.1, h.1, h.2⟩
    · rw [if_neg h] at hpc
      exact absurd hpc (by simp)
  · left
    unfold parseChunk at hpc
    rw [hcm] at hpc
    obtain ⟨rfl⟩ := Option.some.inj hpc
    exact ⟨chunk, hmem, hcm⟩

/-- **C3, witness.** -/
theorem parse_contacts_email_sources_witness :
    (∃ chunk, chunk ∈ chunksOf (chars "bob@y.org")
        ∧ contactMatch chunk
            = some ((⟨chars "Bob", chars "bob@y.org"⟩ : Contact).display_name,
                    (⟨chars "Bob", chars "bob@y.org"⟩ : Contact).email))
      ∨ ((⟨chars "Bob", chars "bob@y.org"⟩ : Contact).email ≠ []
          ∧ '@' ∈ (⟨chars "Bob", chars "bob@y.org"⟩ : Contact).email
          ∧ ' ' ∉ (⟨chars "Bob", chars "bob@y.org"⟩ : Contact).email) :=
  parse_contacts_email_sources (chars "bob@y.org") ⟨chars "Bob", chars "bob@y.org"⟩
    (by decide)

theorem reSplitWs_single (c : Char) :
    reSplitWs [c] = if isSpace c = true then [[], []] else [[c]] := rfl

theorem reSplitWs_cons_cons (c d : Char) (rs : List Char) :
    reSplitWs (c :: d :: rs)
      = if isSpace c = true then
          (if isSpace d = true then reSplitWs (d :: rs)
           else [] :: reSplitWs (d :: rs))
        else
          match reSplitWs (d :: rs) with
          | [] => [[c]]
          | h :: t => (c :: h) :: t := rfl

theorem reSplitWs_ne_nil (s : List Char) : reSplitWs s ≠ [] := by
  induction s with
  | nil => simp [reSplitWs]
  | cons c rest ih =>
    cases rest with
    | nil =>
      rw [reSplitWs_single]
      split <;> simp
    | cons d rs =>
      rw [reSplitWs_cons_cons]
      split
      · split
        · exact ih
        · simp
      · rcases h : reSplitWs (d :: rs) with _ | ⟨x, xs⟩
        · simp
        · simp

theorem reSplitWs_headD_space (s : List Char) :
    ∀ c, isSpace c = true → (reSplitWs (c :: s)).headD [] = [] := by
  induction s with
  | nil =>
    intro c hc
    rw [reSplitWs_single, if_pos hc]
    rfl
  | cons d rs ih =>
    intro c hc
    rw [reSplitWs_cons_cons, if_pos hc]
    by_cases hd : isSpace d = true
    · rw [if_pos hd]
      exact ih d hd
    · rw [if_neg hd]
      rfl

theorem reSplitWs_headD (s : List Char) :
    (reSplitWs s).headD [] = s.takeWhile (fun c => !isSpace c) := by
  induction s with
  | nil => rfl
  | cons c rest ih =>
    by_cases hc : isSpace c = true
    · rw [reSplitWs_headD_space rest c hc]
      simp [List.takeWhile_cons, hc]
    · cases rest with
      | nil =>
        rw [reSplitWs_single, if_neg hc]
        simp [List.takeWhile_cons, hc]
      | cons d rs =>
        rw [reSplitWs_cons_cons, if_neg hc]
        rcases h : reSplitWs (d :: rs) with _ | ⟨x, xs⟩
        · exact absurd h (reSplitWs_ne_nil (d :: rs))
        · rw [h] at ih
          simp only [List.headD_cons] at ih
          simp [List.takeWhile_cons, hc, ih]

/-- **C4, counterexample.**  `first_name` of the display name `",x"` is
`"x"`: the code's `.strip(",")` removes the LEADING comma as well, while
the claim allows only a trailing comma to be removed, which would give
`",x"`. -/
theorem first_name_comma_counterexample :
    first_name ⟨chars ",x", chars "e"⟩ = chars "x"
      ∧ chars "x" ≠ chars ",x" := by
  decide

/-- **C4, amended.**  `first_name` is the first whitespace-delimited
token of the trimmed display name with ALL leading and trailing commas
stripped (Python `.strip(",")`), and the empty string when the display
name is empty or whitespace-only. -/
theorem first_name_spec (dn em : List Char) :
    (first_name ⟨dn, em⟩
      = if strip dn = [] then []
        else stripWhile (fun ch => ch == ',')
          ((strip dn).takeWhile (fun c => !isSpace c)))
    ∧ (dn.all isSpace = true → first_name ⟨dn, em⟩ = []) := by
  have hmain : first_name ⟨dn, em⟩
      = if strip dn = [] then []
        else stripWhile (fun ch => ch == ',')
          ((strip dn).takeWhile (fun c => !isSpace c)) := by
    unfold first_name
    dsimp only
    by_cases h : strip dn = []
    · rw [if_pos h, if_pos h]
    · rw [if_neg h, if_neg h, reSplitWs_headD]
  refine ⟨hmain, fun hall => ?_⟩
  have h2 : strip dn = [] := stripWhile_all (fun c hc => by
    rw [List.all_eq_true] at hall
    exact hall c hc)
  rw [hmain, if_pos h2]

/-- **C4, witness.** -/
theorem first_name_spec_witness :
    first_name ⟨chars "  Jane  Q. Doe ", chars "e"⟩ = chars "Jane"
      ∧ first_name ⟨chars "   ", chars "e"⟩ = [] := by
  constructor
  · exact ((first_name_spec (chars "  Jane  Q. Doe ") (chars "e")).1).trans (by decide)
  · exact (first_name_spec (chars "   ") (chars "e")).2 (by decide)

/-- Auxiliary counting fact: each element of a list is either kept by a
`filterMap` or counted by the complementary `filter`. -/
theorem filterMap_length_split {α β : Type} [DecidableEq β] (f : α → Option β) :
    ∀ l : List α,
      (l.filterMap f).length
        + (l.filter (fun a => f a = none)).length = l.length := by
  intro l
  induction l with
  | nil => rfl
  | cons a l ih =>
    rcases h : f a with _ | b
    · simp [List.filterMap_cons, h, List.filter_cons]
      omega
    · simp [List.filterMap_cons, h, List.filter_cons]
      omega

/-- **C10.**  `parse_contacts` is a total function (it is defined by
structural recursion, so it returns a value — a possibly empty list —
on every input and cannot raise): on the empty string it returns no
contacts, and every chunk either yields exactly one Contact or is
skipped with exactly one warning, so no input can make it fail. -/
theorem parse_contacts_total :
    (∀ text : List Char,
      (parse_contacts text).length + (parseWarnings text).length
        = (chunksOf text).length)
    ∧ parse_contacts [] = [] := by
  constructor
  · intro text
    exact filterMap_length_split parseChunk (chunksOf text)
  · rfl

theorem replaceAllFuel_eq (pat repl : List Char) :
    ∀ fuel s, s.length ≤ fuel →
      replaceAllFuel pat repl fuel s = replaceAllFuel pat repl s.length s := by
  intro fuel
  induction fuel using Nat.strong_induction_on with
  | _ fuel ih =>
    intro s hs
    cases fuel with
    | zero =>
      have : s = [] := List.length_eq_zero.mp (Nat.le_zero.mp hs)
      subst this
      rfl
    | succ k =>
      cases s with
      | nil => rfl
      | cons c rest =>
        have hrk : rest.length ≤ k := by
          simp only [List.length_cons] at hs
          omega
        simp only [replaceAllFuel, List.length_cons]
        by_cases h : pat ≠ [] ∧ leads pat (c :: rest) = true
        · rw [if_pos h, if_pos h]
          have hlen : ((c :: rest).drop pat.length).length ≤ rest.length := by
            simp only [List.length_drop, List.length_cons]
            have : pat.length ≠ 0 := fun hz => h.1 (List.length_eq_zero.mp hz)
            omega
          rw [ih k (Nat.lt_succ_self k) _ (le_trans hlen hrk)]
          rw [ih rest.length (Nat.lt_succ_of_le hrk) _ hlen]
        · rw [if_neg h, if_neg h]
          rw [ih k (Nat.lt_succ_self k) rest hrk]

theorem replaceAll_nil (pat repl : List Char) : replaceAll pat repl [] = [] := rfl

theorem replaceAll_cons (pat repl : List Char) (c : Char) (rest : List Char) :
    replaceAll pat repl (c :: rest)
      = if pat ≠ [] ∧ leads pat (c :: rest) = true then
          repl ++ replaceAll pat repl ((c :: rest).drop pat.length)
        else c :: replaceAll pat repl rest := by
  unfold replaceAll
  simp only [List.length_cons, replaceAllFuel]
  by_cases h : pat ≠ [] ∧ leads pat (c :: rest) = true
  · rw [if_pos h, if_pos h]
    have hlen : ((c :: rest).drop pat.length).length ≤ rest.length := by
      simp only [List.length_drop, List.length_cons]
      have : pat.length ≠ 0 := fun hz => h.1 (List.length_eq_zero.mp hz)
      omega
    rw [replaceAllFuel_eq pat repl rest.length _ hlen]
  · rw [if_neg h, if_neg h]

theorem leads_append_self (x y : List Char) : leads x (x ++ y) = true := by
  induction x with
  | nil => rfl
  | cons c cs ih => simp [leads, ih]

theorem leads_cons_ne {p c : Char} (ps x : List Char) (h : p ≠ c) :
    leads (p :: ps) (c :: x) = false := by
  simp [leads]
  intro hc
  exact absurd hc h

theorem replaceAll_not_occurs (pat repl : List Char) :
    ∀ s, occurs pat s = false → replaceAll pat repl s = s := by
  intro s
  induction s with
  | nil =>
    intro _
    rfl
  | cons c rest ih =>
    intro h
    simp only [occurs, Bool.or_eq_false_iff] at h
    rw [replaceAll_cons]
    rw [if_neg (fun hand => by rw [hand.2] at h; exact absurd h.1 (by simp))]
    rw [ih h.2]

theorem replaceAll_token_boundary (repl b : List Char) :
    ∀ a, (∀ ch ∈ a, ch ≠ '\x7b') →
      replaceAll token repl (a ++ (token ++ b))
        = a ++ (repl ++ replaceAll token repl b) := by
  intro a
  induction a with
  | nil =>
    intro _
    simp only [List.nil_append]
    have hshape : token ++ b = '\x7b' :: (chars "\x7balumni_name\x7d\x7d" ++ b) := rfl
    rw [hshape, replaceAll_cons, ← hshape]
    rw [if_pos ⟨by decide, leads_append_self token b⟩]
    rw [List.drop_left]
  | cons c a' ih =>
    intro ha
    simp only [List.cons_append]
    rw [replaceAll_cons]
    rw [if_neg (fun hand => by
      have : leads token (c :: (a' ++ (token ++ b))) = false := by
        have hshape : token = '\x7b' :: chars "\x7balumni_name\x7d\x7d" := rfl
        rw [hshape]
        exact leads_cons_ne _ _ (fun hq => ha c (by simp) hq.symm)
      rw [this] at hand
      exact absurd hand.2 (by simp))]
    rw [ih (fun ch hch => ha ch (by simp [hch]))]

/-- **C5.**  `personalize` replaces every occurrence of the literal
placeholder token with the first-name string — or with the word `there`
when that string is empty — and changes nothing else: on a template with
no occurrence of the token the output is the input, and a template that
is `a ++ token ++ b` (with no occurrence starting inside `a`, which is
guaranteed when `a` has no `\x7b`) renders to `a`, then the substituted
name, then the rendering of `b`. -/
theorem personalize_spec (fn t a b : List Char) (ha : ∀ ch ∈ a, ch ≠ '\x7b') :
    (occurs token t = false → personalize t fn = t)
    ∧ personalize (a ++ (token ++ b)) fn
        = a ++ ((if fn = [] then thereWord else fn) ++ personalize b fn) := by
  constructor
  · intro h
    unfold personalize
    exact replaceAll_not_occurs token _ t h
  · unfold personalize
    exact replaceAll_token_boundary _ b a ha

/-- **C5, witness.** -/
theorem personalize_spec_witness :
    personalize (chars "xyz") (chars "Bob") = chars "xyz"
      ∧ personalize (chars "Hi \x7b\x7balumni_name\x7d\x7d!") (chars "Bob")
          = chars "Hi Bob!"
      ∧ personalize (chars "Hi \x7b\x7balumni_name\x7d\x7d!") [] = chars "Hi there!" := by
  have h1 := (personalize_spec (chars "Bob") (chars "xyz") (chars "Hi ") (chars "!")
    (by decide)).1 (by decide)
  have h2 := (personalize_spec (chars "Bob") (chars "xyz") (chars "Hi ") (chars "!")
    (by decide)).2
  have h3 := (personalize_spec [] (chars "xyz") (chars "Hi ") (chars "!")
    (by decide)).2
  refine ⟨h1, ?_, ?_⟩
  · exact (by decide : chars "Hi \x7b\x7balumni_name\x7d\x7d!"
      = chars "Hi " ++ (token ++ chars "!")) ▸ h2.trans (by decide)
  · exact (by decide : chars "Hi \x7b\x7balumni_name\x7d\x7d!"
      = chars "Hi " ++ (token ++ chars "!")) ▸ h3.trans (by decide)

/-! ### Driver lemmas -/

theorem sentLine_ne_done (c : Contact) (s n : Nat) : sentLine c ≠ doneLine s n := by
  intro h
  have h1 : (sentLine c).head? = some '✅' := rfl
  rw [h] at h1
  have h2 : (doneLine s n).head? = some 'D' := rfl
  rw [h2] at h1
  exact absurd (Option.some.inj h1) (by decide)

theorem authLine_ne_done (s n : Nat) : authLine ≠ doneLine s n := by
  intro h
  have h1 : authLine.head? = some '❌' := rfl
  rw [h] at h1
  have h2 : (doneLine s n).head? = some 'D' := rfl
  rw [h2] at h1
  exact absurd (Option.some.inj h1) (by decide)

theorem failLine_ne_done (c : Contact) (m : List Char) (s n : Nat) :
    failLine c m ≠ doneLine s n := by
  intro h
  have h1 : (failLine c m).head? = some '⚠' := rfl
  rw [h] at h1
  have h2 : (doneLine s n).head? = some 'D' := rfl
  rw [h2] at h1
  exact absurd (Option.some.inj h1) (by decide)

theorem foundLine_ne_done (k : Nat) (dry : Bool) (s n : Nat) :
    foundLine k dry ≠ doneLine s n := by
  intro h
  have h1 : (foundLine k dry).head? = some 'F' := rfl
  rw [h] at h1
  have h2 : (doneLine s n).head? = some 'D' := rfl
  rw [h2] at h1
  exact absurd (Option.some.inj h1) (by decide)

theorem sendLoop_no_abort (cfg : Config) (res : Nat → SendResult) (jit : Nat → Rat)
    (hdry : cfg.dryRun = false) :
    ∀ cs i, (∀ j, j < cs.length → res (i + j) ≠ .authFail) →
      (sendLoop cfg res jit cs i).2.2 = false := by
  intro cs
  induction cs with
  | nil =>
    intro i _
    rfl
  | cons c cs ih =>
    intro i h
    rcases hres : res i with _ | _ | m
    · simp only [sendLoop, loopStep, hdry, Bool.false_eq_true, if_false, hres]
      exact ih (i + 1) (fun j hj => by
        have := h (j + 1) (by simpa using Nat.succ_lt_succ hj)
        rwa [show i + (j + 1) = i + 1 + j from by omega] at this)
    · exact absurd (by simpa using hres) (by simpa using h 0 (by simp))
    · simp only [sendLoop, loopStep, hdry, Bool.false_eq_true, if_false, hres]
      exact ih (i + 1) (fun j hj => by
        have := h (j + 1) (by simpa using Nat.succ_lt_succ hj)
        rwa [show i + (j + 1) = i + 1 + j from by omega] at this)

theorem sendLoop_append (cfg : Config) (res : Nat → SendResult) (jit : Nat → Rat)
    (q : List Contact) :
    ∀ pre i, (sendLoop cfg res jit pre i).2.2 = false →
      sendLoop cfg res jit (pre ++ q) i
        = ((sendLoop cfg res jit pre i).1 ++ (sendLoop cfg res jit q (i + pre.length)).1,
           (sendLoop cfg res jit pre i).2.1 + (sendLoop cfg res jit q (i + pre.length)).2.1,
           (sendLoop cfg res jit q (i + pre.length)).2.2) := by
  intro pre
  induction pre with
  | nil =>
    intro i _
    simp [sendLoop]
  | cons c pre ih =>
    intro i hab
    rcases hr : loopStep cfg res jit c i with ⟨evs, inc, ab⟩
    cases ab with
    | true =>
      exfalso
      simp only [sendLoop, hr] at hab
      simp at hab
    | false =>
      have hab' : (sendLoop cfg res jit pre (i + 1)).2.2 = false := by
        simp only [sendLoop, hr] at hab
        simpa using hab
      simp only [List.cons_append, sendLoop, hr]
      simp only [if_neg Bool.false_ne_true]
      simp only [List.append_eq]
      rw [ih (i + 1) hab']
      simp only [List.append_assoc, List.length_cons]
      rw [show i + (pre.length + 1) = i + 1 + pre.length from by omega]
      simp [Nat.add_assoc]

theorem sendLoop_dry (cfg : Config) (res : Nat → SendResult) (jit : Nat → Rat)
    (hdry : cfg.dryRun = true) :
    ∀ cs i, sendLoop cfg res jit cs i
      = (cs.flatMap (fun c =>
          [.out sepLine, .out (toLine c), .out (subjectLine cfg.subject),
           .out (personalize cfg.template (first_name c))]), 0, false) := by
  intro cs
  induction cs with
  | nil =>
    intro i
    rfl
  | cons c cs ih =>
    intro i
    simp only [sendLoop, loopStep, hdry, if_true]
    rw [ih (i + 1)]
    simp

theorem sendLoop_no_doneLine (cfg : Config) (res : Nat → SendResult) (jit : Nat → Rat)
    (hdry : cfg.dryRun = false) :
    ∀ cs i s n, Event.out (doneLine s n) ∉ (sendLoop cfg res jit cs i).1 := by
  intro cs
  induction cs with
  | nil =>
    intro i s n h
    simp [sendLoop] at h
  | cons c cs ih =>
    intro i s n h
    rcases hres : res i with _ | _ | m <;>
      simp only [sendLoop, loopStep, hdry, Bool.false_eq_true, if_false, hres] at h
    · simp only [List.cons_append, List.nil_append] at h
      rcases List.mem_cons.mp h with h1 | h1
      · exact absurd h1 (by simp)
      · rcases List.mem_cons.mp h1 with h2 | h2
        · exact sentLine_ne_done c s n (Event.out.inj h2).symm
        · rcases List.mem_cons.mp h2 with h3 | h3
          · exact absurd h3 (by simp)
          · exact ih (i + 1) s n (by simpa using h3)
    · rcases List.mem_cons.mp h with h1 | h1
      · exact absurd h1 (by simp)
      · rcases List.mem_cons.mp h1 with h2 | h2
        · exact authLine_ne_done s n (Event.out.inj h2).symm
        · simp at h2
    · simp only [List.cons_append, List.nil_append] at h
      rcases List.mem_cons.mp h with h1 | h1
      · exact absurd h1 (by simp)
      · rcases List.mem_cons.mp h1 with h2 | h2
        · exact failLine_ne_done c m s n (Event.out.inj h2).symm
        · rcases List.mem_cons.mp h2 with h3 | h3
          · exact absurd h3 (by simp)
          · exact ih (i + 1) s n (by simpa using h3)

/-- **C6.**  First half: when the send attempt for some recipient raises
an authentication failure (and no earlier attempt did), the run prints
the diagnostic and re-raises — the trace is exactly the `Found` line, the
events of the preceding recipients, the failing attempt and the
diagnostic; no later recipient is attempted and the final summary line
never appears in the trace.  Second half: any other per-message failure
is reported for that contact only, contributes nothing to the success
count, and the loop continues with the next recipient. -/
theorem send_failure_handling :
    (∀ cfg res jit pre c post,
      cfg.dryRun = false →
      truthy cfg.senderEmail = true → truthy cfg.senderPass = true →
      parse_contacts cfg.listText = pre ++ c :: post →
      (∀ j, j < pre.length → res j ≠ .authFail) →
      res pre.length = .authFail →
      runMain cfg res jit
        = (.out (foundLine (pre ++ c :: post).length false)
            :: ((sendLoop cfg res jit pre 0).1 ++ [.attempt c.email, .out authLine]),
           .authAbort)
        ∧ (∀ s n, Event.out (doneLine s n) ∉ (runMain cfg res jit).1))
    ∧ (∀ cfg res jit c cs i m,
      cfg.dryRun = false → res i = .otherFail m →
      sendLoop cfg res jit (c :: cs) i
        = ([.attempt c.email, .out (failLine c m), .sleep (pause cfg.delay (jit i))]
            ++ (sendLoop cfg res jit cs (i + 1)).1,
           (sendLoop cfg res jit cs (i + 1)).2.1,
           (sendLoop cfg res jit cs (i + 1)).2.2)) := by
  constructor
  · intro cfg res jit pre c post hdry hc1 hc2 hparse hnoauth hauth
    have hpre_ab : (sendLoop cfg res jit pre 0).2.2 = false :=
      sendLoop_no_abort cfg res jit hdry pre 0
        (fun j hj => by simpa using hnoauth j hj)
    have htail : sendLoop cfg res jit (c :: post) (0 + pre.length)
        = ([.attempt c.email, .out authLine], 0, true) := by
      simp only [Nat.zero_add]
      simp [sendLoop, loopStep, hdry, hauth]
    have hsplit := sendLoop_append cfg res jit (c :: post) pre 0 hpre_ab
    rw [htail] at hsplit
    have heq : runMain cfg res jit
        = (.out (foundLine (pre ++ c :: post).length false)
            :: ((sendLoop cfg res jit pre 0).1 ++ [.attempt c.email, .out authLine]),
           .authAbort) := by
      unfold runMain
      rw [if_neg (by simp [hc1, hc2])]
      simp only [hparse]
      rw [if_neg (by simp)]
      rw [hsplit]
      simp [hdry]
    refine ⟨heq, fun s n hmem => ?_⟩
    rw [heq] at hmem
    rcases List.mem_cons.mp hmem with h1 | h1
    · exact foundLine_ne_done _ false s n (Event.out.inj h1).symm
    · rcases List.mem_append.mp h1 with h2 | h2
      · exact sendLoop_no_doneLine cfg res jit hdry pre 0 s n h2
      · rcases List.mem_cons.mp h2 with h3 | h3
        · exact absurd h3 (by simp)
        · rcases List.mem_cons.mp h3 with h4 | h4
          · exact authLine_ne_done s n (Event.out.inj h4).symm
          · simp at h4
  · intro cfg res jit c cs i m hdry hres
    simp [sendLoop, loopStep, hdry, hres]

/-- **C6, witness.** -/
theorem send_failure_handling_witness :
    runMain cfgTwo resAuth jitZero
      = ([.out (foundLine 2 false), .attempt (chars "x@y"), .out authLine],
         .authAbort) := by
  have h := (send_failure_handling.1 cfgTwo resAuth jitZero []
    ⟨chars "a", chars "x@y"⟩ [⟨chars "b", chars "z@w"⟩]
    rfl (by decide) (by decide) (by decide)
    (fun j hj => absurd hj (by simp)) rfl).1
  exact h.trans (by decide)

/-- **C7.**  If a required environment credential is missing (or empty),
or the parsed recipient list is empty, the run raises `SystemExit` with a
descriptive message — a non-zero exit status — and its trace is empty: no
send is attempted. -/
theorem config_error_aborts (cfg : Config) (res : Nat → SendResult) (jit : Nat → Rat)
    (h : truthy cfg.senderEmail = false ∨ truthy cfg.senderPass = false
      ∨ parse_contacts cfg.listText = []) :
    (∃ msg, runMain cfg res jit = ([], .configError msg))
    ∧ exitCode (runMain cfg res jit).2 ≠ 0 := by
  by_cases hc : truthy cfg.senderEmail = false ∨ truthy cfg.senderPass = false
  · have heq : runMain cfg res jit = ([], .configError missingCredsMsg) := by
      unfold runMain
      rw [if_pos hc]
    exact ⟨⟨missingCredsMsg, heq⟩, by rw [heq]; simp [exitCode]⟩
  · have hcs : parse_contacts cfg.listText = [] := by tauto
    have heq : runMain cfg res jit = ([], .configError noContactsMsg) := by
      unfold runMain
      rw [if_neg hc]
      simp only [hcs]
      simp
    exact ⟨⟨noContactsMsg, heq⟩, by rw [heq]; simp [exitCode]⟩

/-- **C7, witness.** -/
theorem config_error_aborts_witness :
    (∃ msg, runMain cfgNoCred resOk jitZero = ([], .configError msg))
    ∧ exitCode (runMain cfgNoCred resOk jitZero).2 ≠ 0 :=
  config_error_aborts cfgNoCred resOk jitZero (Or.inl rfl)

/-- **C8.**  In dry-run mode no network attempt and no sleep occur: the
trace is exactly the `Found` line, then for each contact the separator,
`TO:` and `SUBJECT:` lines and the rendered body, and the final summary
with a success count of zero. -/
theorem dry_run_spec (cfg : Config) (res : Nat → SendResult) (jit : Nat → Rat)
    (cs : List Contact) (hdry : cfg.dryRun = true)
    (h1 : truthy cfg.senderEmail = true) (h2 : truthy cfg.senderPass = true)
    (hcs : parse_contacts cfg.listText = cs) (hne : cs ≠ []) :
    runMain cfg res jit
      = (.out (foundLine cs.length true)
          :: (cs.flatMap (fun c =>
              [.out sepLine, .out (toLine c), .out (subjectLine cfg.subject),
               .out (personalize cfg.template (first_name c))])
            ++ [.out (doneLine 0 cs.length)]),
         .done 0 cs.length)
    ∧ (∀ e ∈ (runMain cfg res jit).1,
        (∀ a, e ≠ .attempt a) ∧ (∀ d, e ≠ .sleep d)) := by
  have heq : runMain cfg res jit
      = (.out (foundLine cs.length true)
          :: (cs.flatMap (fun c =>
              [.out sepLine, .out (toLine c), .out (subjectLine cfg.subject),
               .out (personalize cfg.template (first_name c))])
            ++ [.out (doneLine 0 cs.length)]),
         .done 0 cs.length) := by
    unfold runMain
    rw [if_neg (by simp [h1, h2])]
    simp only [hcs]
    rw [if_neg hne]
    rw [sendLoop_dry cfg res jit hdry cs 0]
    simp [hdry]
  refine ⟨heq, fun e he => ?_⟩
  rw [heq] at he
  rcases List.mem_cons.mp he with h | h
  · subst h
    exact ⟨fun a => by simp, fun d => by simp⟩
  · rcases List.mem_append.mp h with h | h
    · obtain ⟨c, _, hc⟩ := List.mem_flatMap.mp h
      rcases List.mem_cons.mp hc with h3 | h3
      · subst h3
        exact ⟨fun a => by simp, fun d => by simp⟩
      · rcases List.mem_cons.mp h3 with h4 | h4
        · subst h4
          exact ⟨fun a => by simp, fun d => by simp⟩
        · rcases List.mem_cons.mp h4 with h5 | h5
          · subst h5
            exact ⟨fun a => by simp, fun d => by simp⟩
          · rcases List.mem_cons.mp h5 with h6 | h6
            · subst h6
              exact ⟨fun a => by simp, fun d => by simp⟩
            · simp at h6
    · rcases List.mem_cons.mp h with h7 | h7
      · subst h7
        exact ⟨fun a => by simp, fun d => by simp⟩
      · simp at h7

/-- **C8, witness.** -/
theorem dry_run_spec_witness :
    runMain cfgDry resOk jitZero
      = ([.out (foundLine 1 true), .out sepLine, .out (toLine contactA),
          .out (subjectLine (chars "S")),
          .out (personalize (chars "T") (first_name contactA)),
          .out (doneLine 0 1)], .done 0 1) := by
  have h := (dry_run_spec cfgDry resOk jitZero [contactA]
    rfl (by decide) (by decide) (by decide) (by decide)).1
  exact h.trans (by decide)

/-- **C9, counterexample.**  With `--delay -1`, the pause after a
successful send is `max(0, -1) + jitter = 0 + 0 = 0` seconds, not the
claimed `delay + jitter = -1 + 0`. -/
theorem negative_delay_counterexample :
    sendLoop cfgNeg resOk jitZero [contactA] 0
      = ([.attempt (chars "a@b"), .out (sentLine contactA), .sleep 0], 1, false)
    ∧ cfgNeg.delay + jitZero 0 ≠ 0 := by
  constructor
  · simp [sendLoop, loopStep, cfgNeg, resOk, jitZero, contactA, pause, pyMax]
  · simp [cfgNeg, jitZero]

/-- **C9, amended.**  In non-dry-run mode, after every send attempt that
succeeds or fails recoverably, the loop sleeps for exactly
`max(0, delay) + jitter` seconds — the delay clamped at zero, with the
drawn jitter added — before the next recipient's events. -/
theorem sleep_after_attempt (cfg : Config) (res : Nat → SendResult) (jit : Nat → Rat)
    (c : Contact) (cs : List Contact) (i : Nat) (m : List Char)
    (hdry : cfg.dryRun = false) :
    (res i = .ok →
      sendLoop cfg res jit (c :: cs) i
        = ([.attempt c.email, .out (sentLine c), .sleep (pyMax 0 cfg.delay + jit i)]
            ++ (sendLoop cfg res jit cs (i + 1)).1,
           1 + (sendLoop cfg res jit cs (i + 1)).2.1,
           (sendLoop cfg res jit cs (i + 1)).2.2))
    ∧ (res i = .otherFail m →
      sendLoop cfg res jit (c :: cs) i
        = ([.attempt c.email, .out (failLine c m), .sleep (pyMax 0 cfg.delay + jit i)]
            ++ (sendLoop cfg res jit cs (i + 1)).1,
           (sendLoop cfg res jit cs (i + 1)).2.1,
           (sendLoop cfg res jit cs (i + 1)).2.2)) := by
  constructor
  · intro hres
    simp [sendLoop, loopStep, hdry, hres, pause]
  · intro hres
    simp [sendLoop, loopStep, hdry, hres, pause]

/-- **C9, witness.** -/
theorem sleep_after_attempt_witness :
    sendLoop cfgPos resOk jitHalf [contactA] 0
      = ([.attempt (chars "a@b"), .out (sentLine contactA), .sleep (7 / 2)],
         1, false) := by
  have h := (sleep_after_attempt cfgPos resOk jitHalf contactA [] 0 []
    rfl).1 rfl
  refine h.trans ?_
  norm_num [sendLoop, pyMax, cfgPos, jitHalf, contactA, chars]

end AlumniEmail
